import Mathlib

/-!
Shallow embedding of the command/interaction core of the Orbyte repository:
`controller_commands.py` (command registry, `get_arg`),
`controller_worker.py` (gateway heartbeat state, interaction routing) and
`bot_worker.py` (`run_script` / `stop_script` extension runtime).
Python dicts are modelled as association lists with first-match lookup and
in-place overwrite on key collision; Python `None` is `JVal.null`;
`time.time()` reads are rationals.
-/

namespace Orbyte

/-- A JSON-ish value as it appears in an interaction payload.  `null` doubles
as Python `None` (absent value). -/
inductive JVal where
  | null
  | str (s : String)
  | int (n : Int)
  | bool (b : Bool)
deriving DecidableEq, Repr

/-- One entry of an interaction `options` list: `name`, `type` (the numeric
discriminator of `controller_commands.Option`; 1 = SUB_COMMAND,
2 = SUB_COMMAND_GROUP), its `value` (`null` when absent) and its nested
`options` list (empty when absent). -/
inductive Opt where
  | mk (name : String) (type : Nat) (value : JVal) (options : List Opt)
deriving Repr

def Opt.name : Opt → String
  | .mk n _ _ _ => n

def Opt.type : Opt → Nat
  | .mk _ t _ _ => t

def Opt.value : Opt → JVal
  | .mk _ _ v _ => v

def Opt.options : Opt → List Opt
  | .mk _ _ _ os => os

/-- Size measure for the nested `Opt` recursion. -/
def optSize : Opt → Nat
  | .mk _ _ _ os => 1 + optListSize os
where optListSize : List Opt → Nat
  | [] => 0
  | o :: rest => optSize o + optListSize rest

/-- `search_options` from `controller_commands.get_arg`: walk the options
list; on a SUB_COMMAND / SUB_COMMAND_GROUP entry recurse into its nested
options first and keep the result unless it is `None`; otherwise return the
entry's value as soon as its name matches (even when that value is `None`). -/
def searchOptions (name : String) : List Opt → JVal
  | [] => .null
  | .mk onm oty oval oopts :: rest =>
    if oty = 1 ∨ oty = 2 then
      match searchOptions name oopts with
      | .null => searchOptions name rest
      | .str s => .str s
      | .int n => .int n
      | .bool b => .bool b
    else if onm = name then oval
    else searchOptions name rest
termination_by os => optSize.optListSize os
decreasing_by all_goals (simp [optSize, optSize.optListSize]; try omega)

/-- The payload fields `handle_interaction` and `get_arg` read:
`data['type']`, `data['data']['name']`, `data['data']['options']`. -/
structure Interaction where
  itype : Nat
  cmdName : String
  options : List Opt
deriving Repr

/-- `get_arg(interaction, name, default)` from `controller_commands.py`:
run the recursive search and substitute `default` for a `None` result. -/
def get_arg (interaction : Interaction) (name : String) (default : JVal) : JVal :=
  match searchOptions name interaction.options with
  | .null => default
  | v => v

/-- All option nodes of an options tree, at every depth (pre-order). -/
def allNodes : List Opt → List Opt
  | [] => []
  | .mk onm oty oval oopts :: rest =>
    .mk onm oty oval oopts :: (allNodes oopts ++ allNodes rest)
termination_by os => optSize.optListSize os
decreasing_by all_goals (simp [optSize, optSize.optListSize]; try omega)

/-- Modelled from the spec: the depth-first search described for
`getArgument(payload, name)` — recurse into subcommand / subcommand-group
option lists and return the value of the first option whose name matches,
`none` when no option with that name is found. -/
def dfsFirstMatch (name : String) : List Opt → Option JVal
  | [] => none
  | .mk onm oty oval oopts :: rest =>
    if oty = 1 ∨ oty = 2 then
      match dfsFirstMatch name oopts with
      | some v => some v
      | none => dfsFirstMatch name rest
    else if onm = name then some oval
    else dfsFirstMatch name rest
termination_by os => optSize.optListSize os
decreasing_by all_goals (simp [optSize, optSize.optListSize]; try omega)

/-! Gateway heartbeat model (`controller_worker.ControllerClient`).

`listen` and `heartbeat_loop` interleave on one event loop; the events a
session processes are: one iteration of the heartbeat loop body (`hbTick t`
at clock time `t`), receipt of a Heartbeat ACK frame (`recvAck t`, op 11),
and an exception escaping the read loop (`transportError`, which sets
`is_running = False`).  `sentHeartbeats` counts outbound Heartbeat frames
(an observable, not a Python field); `latency = none` models the initial
`float('inf')`. -/

inductive GwEvent where
  | hbTick (t : ℚ)
  | recvAck (t : ℚ)
  | transportError
deriving DecidableEq, Repr

structure GwState where
  is_running : Bool
  wsClosed : Bool
  last_heartbeat_sent : ℚ
  latency : Option ℚ
  sentHeartbeats : Nat
deriving DecidableEq, Repr

/-- One step of the interleaved session.  `hbTick`: the loop body runs only
while `self.is_running and self.ws and not self.ws.closed`; it records
`self._last_heartbeat_sent = time.time()` and sends the frame.  `recvAck`:
`listen` sets `self.latency = time.time() - self._last_heartbeat_sent`
guarded by the truthiness of `self._last_heartbeat_sent`.  `transportError`:
the `except` in `listen` sets `self.is_running = False`. -/
def gwStep (s : GwState) : GwEvent → GwState
  | .hbTick t =>
    if s.is_running && !s.wsClosed then
      { s with last_heartbeat_sent := t, sentHeartbeats := s.sentHeartbeats + 1 }
    else s
  | .recvAck t =>
    if s.last_heartbeat_sent ≠ 0 then
      { s with latency := some (t - s.last_heartbeat_sent) }
    else s
  | .transportError => { s with is_running := false }

def gwRun (s : GwState) (es : List GwEvent) : GwState := es.foldl gwStep s

/-- The session state right after `start` flips `is_running = True`
(`_last_heartbeat_sent = 0`, `latency = float('inf')` from `__init__`). -/
def gwConnected : GwState :=
  { is_running := true, wsClosed := false, last_heartbeat_sent := 0
    latency := none, sentHeartbeats := 0 }

/-! Command registry and interaction router
(`controller_commands.py` / `controller_worker.handle_interaction`).

`COMMANDS_REGISTRY` is a Python dict; it is modelled as an association list
with dict semantics: lookup is first match, assignment overwrites the
existing entry in place (or appends), `del` drops the entry. -/

def dictLookup {α : Type} : List (String × α) → String → Option α
  | [], _ => none
  | (k, v) :: rest, key => if k = key then some v else dictLookup rest key

def dictInsert {α : Type} : List (String × α) → String → α → List (String × α)
  | [], key, v => [(key, v)]
  | (k, w) :: rest, key, v =>
    if k = key then (key, v) :: rest else (k, w) :: dictInsert rest key v

def dictErase {α : Type} : List (String × α) → String → List (String × α)
  | [], _ => []
  | (k, v) :: rest, key => if k = key then rest else (k, v) :: dictErase rest key

/-- A value of `COMMANDS_REGISTRY`: either a plain command dict built by the
`controller_command` decorator (its `callback` is always set; `autocomplete`
may be) or a `CommandGroup` whose `subcommands` dict maps a subcommand name
to its entry (modelled by whether that entry has an `autocomplete`). -/
inductive RegEntry where
  | simple (hasAutocomplete : Bool)
  | group (subs : List (String × Bool))
deriving DecidableEq, Repr

/-- Effect of the `controller_command(name, ...)` decorator and of
`CommandGroup.__init__`: a plain dict assignment `COMMANDS_REGISTRY[name] = ...`. -/
def registerCommand (reg : List (String × RegEntry)) (name : String)
    (entry : RegEntry) : List (String × RegEntry) :=
  dictInsert reg name entry

/-- What `handle_interaction` does with an interaction, as far as the
registry is concerned.  `warn…` variants only log; `nothing` is a silent
no-op; the `call…` variants invoke the resolved callback / autocomplete
handler. -/
inductive Action where
  | callCallback (cmd : String) (sub : Option String)
  | callAutocomplete (cmd : String) (sub : Option String)
  | warnUnknownCommand (name : String)
  | warnUnknownSub (name : String)
  | nothing
deriving DecidableEq, Repr

/-- Routing logic of `ControllerClient.handle_interaction` (the registry
branch; the usage-telemetry block touches no registry state).  For a
`CommandGroup` the code inspects only `options[0]` and only accepts
`type == 1` (SUB_COMMAND); interaction type 4 is an autocomplete request. -/
def route (reg : List (String × RegEntry)) (i : Interaction) : Action :=
  match dictLookup reg i.cmdName with
  | none => .warnUnknownCommand i.cmdName
  | some (.group subs) =>
    match i.options with
    | [] => .nothing
    | o :: _ =>
      if o.type = 1 then
        match dictLookup subs o.name with
        | none => .warnUnknownSub o.name
        | some hasAuto =>
          if i.itype = 4 then
            if hasAuto then .callAutocomplete i.cmdName (some o.name) else .nothing
          else .callCallback i.cmdName (some o.name)
      else .nothing
  | some (.simple hasAuto) =>
    if i.itype = 4 then
      if hasAuto then .callAutocomplete i.cmdName none else .nothing
    else .callCallback i.cmdName none

/-! Extension runtime (`bot_worker.BotWorker.run_script` / `stop_script`).

`client.commands` is modelled as the list of registered command names (names
are unique: discord.py rejects duplicate registrations), `extra_events` as a
flat list of `(event_name, handler)` pairs where a handler identity is a
`Nat`.  The bookkeeping dicts `script_commands`, `script_listeners` and
`running_tasks` are association lists keyed by filename.  A task is a pair
of its `done` and `cancelled` flags.  The effect of `exec(script_content)`
is abstracted as the commands and listeners the code unit adds. -/

structure TaskRec where
  done : Bool
  cancelled : Bool
deriving DecidableEq, Repr

structure BotState where
  commands : List String
  listeners : List (String × Nat)
  script_commands : List (String × List String)
  script_listeners : List (String × List (String × Nat))
  running_tasks : List (String × TaskRec)
deriving DecidableEq, Repr

/-- Step 1 of `stop_script`: for each recorded name, `get_command` then
`remove_command` (a no-op when absent). -/
def removeCommands (cs : List String) (names : List String) : List String :=
  names.foldl (fun acc n => acc.filter (fun c => c ≠ n)) cs

/-- discord.py `remove_listener`: drop the first occurrence of the handler
from the event's list (swallowed error when absent). -/
def removeFirstListener (ls : List (String × Nat)) (x : String × Nat) :
    List (String × Nat) :=
  match ls with
  | [] => []
  | y :: rest => if y = x then rest else y :: removeFirstListener rest x

/-- Step 2 of `stop_script`: remove each recorded `(event, handler)` pair. -/
def removeListeners (ls : List (String × Nat)) (rec : List (String × Nat)) :
    List (String × Nat) :=
  rec.foldl removeFirstListener ls

/-- Step 3 of `stop_script`: `if filename in running_tasks` and the task is
not done, `task.cancel()`. -/
def cancelTask (ts : List (String × TaskRec)) (fn : String) :
    List (String × TaskRec) :=
  match ts with
  | [] => []
  | (k, t) :: rest =>
    if k = fn then (k, if t.done then t else { t with cancelled := true }) :: rest
    else (k, t) :: cancelTask rest fn

/-- `BotWorker.stop_script(filename)`: remove the recorded commands and drop
the `script_commands` entry; remove the recorded listeners and drop the
`script_listeners` entry; cancel a tracked unfinished task. -/
def stop_script (s : BotState) (fn : String) : BotState :=
  let s1 :=
    match dictLookup s.script_commands fn with
    | some names =>
      { s with commands := removeCommands s.commands names
               script_commands := dictErase s.script_commands fn }
    | none => s
  let s2 :=
    match dictLookup s1.script_listeners fn with
    | some ls =>
      { s1 with listeners := removeListeners s1.listeners ls
                script_listeners := dictErase s1.script_listeners fn }
    | none => s1
  { s2 with running_tasks := cancelTask s2.running_tasks fn }

/-- The observable effect of executing one code unit: the commands and
listeners it registers against the live session. -/
structure Script where
  cmds : List String
  ls : List (String × Nat)
deriving Repr

/-- Python set difference `after - before` on command-name snapshots
(membership-exact; order irrelevant, realised as filter + dedup). -/
def setDiffStr (after before : List String) : List String :=
  (after.filter (fun c => decide (c ∉ before))).dedup

/-- Python set difference on listener snapshots. -/
def setDiffL (after before : List (String × Nat)) : List (String × Nat) :=
  (after.filter (fun x => decide (x ∉ before))).dedup

/-- The body of `run_script` after the already-loaded check: snapshot
commands and listeners, `exec` the unit, diff the snapshots, record any new
registrations under `filename` and track a fresh keep-alive task when the
unit registered anything. -/
def load_body (s : BotState) (fn : String) (sc : Script) : BotState :=
  let before := s.commands
  let lsBefore := s.listeners
  let s1 := { s with commands := s.commands ++ sc.cmds
                     listeners := s.listeners ++ sc.ls }
  let newCmds := setDiffStr s1.commands before
  let newLs := setDiffL s1.listeners lsBefore
  let s2 :=
    if newCmds ≠ [] then
      { s1 with script_commands := dictInsert s1.script_commands fn newCmds }
    else s1
  let s3 :=
    if newLs ≠ [] then
      { s2 with script_listeners := dictInsert s2.script_listeners fn newLs }
    else s2
  if newCmds ≠ [] ∨ newLs ≠ [] then
    { s3 with running_tasks := dictInsert s3.running_tasks fn ⟨false, false⟩ }
  else s3

/-- `BotWorker.run_script(script_content, filename)`:
`if filename in self.running_tasks: await self.stop_script(filename)`
(`stop_script` has no suspension point, so it runs to completion first),
then the load body. -/
def run_script (s : BotState) (fn : String) (sc : Script) : BotState :=
  let s0 := if (dictLookup s.running_tasks fn).isSome then stop_script s fn else s
  load_body s0 fn sc

/-- What `await`ing a task observes once it finishes: a cancel signal
surfaces as `asyncio.CancelledError` (the keep-alive re-raises it). -/
inductive ScriptOutcome where
  | completed
  | failed
  | cancelled
deriving DecidableEq, Repr

def awaitOutcome (t : TaskRec) : ScriptOutcome :=
  if t.cancelled then .cancelled else .completed

/-- The `except asyncio.CancelledError` / `finally` tail of `run_script`
once its awaited task has been cancelled: report the stop and drop the
`running_tasks` entry.  It touches no command or listener state. -/
def finalizeCancelled (s : BotState) (fn : String) : BotState :=
  { s with running_tasks := dictErase s.running_tasks fn }

/-! Helper lemmas about the dict model. -/

theorem dictLookup_insert_self {α : Type} (l : List (String × α)) (k : String) (v : α) :
    dictLookup (dictInsert l k v) k = some v := by
  induction l with
  | nil => simp [dictInsert, dictLookup]
  | cons hd tl ih =>
    obtain ⟨k', w⟩ := hd
    by_cases h : k' = k <;> simp [dictInsert, dictLookup, h, ih]

theorem dictLookup_insert_ne {α : Type} (l : List (String × α)) (k k' : String) (v : α)
    (h : k' ≠ k) : dictLookup (dictInsert l k v) k' = dictLookup l k' := by
  have h' : ¬k = k' := fun hh => h hh.symm
  induction l with
  | nil => simp [dictInsert, dictLookup, h']
  | cons hd tl ih =>
    obtain ⟨k'', w⟩ := hd
    by_cases h2 : k'' = k
    · subst h2
      simp [dictInsert, dictLookup, h']
    · by_cases h3 : k'' = k' <;> simp [dictInsert, dictLookup, h2, h3, ih, h]

theorem dictLookup_erase_ne {α : Type} (l : List (String × α)) (k k' : String)
    (h : k' ≠ k) : dictLookup (dictErase l k) k' = dictLookup l k' := by
  have h' : ¬k = k' := fun hh => h hh.symm
  induction l with
  | nil => simp [dictErase, dictLookup]
  | cons hd tl ih =>
    obtain ⟨k'', w⟩ := hd
    by_cases h2 : k'' = k
    · subst h2
      simp [dictErase, dictLookup, h']
    · by_cases h3 : k'' = k' <;> simp [dictErase, dictLookup, h2, h3, ih, h]

theorem dictLookup_eq_none_of_not_mem {α : Type} (l : List (String × α)) (k : String)
    (h : k ∉ l.map Prod.fst) : dictLookup l k = none := by
  induction l with
  | nil => simp [dictLookup]
  | cons hd tl ih =>
    obtain ⟨k', w⟩ := hd
    simp only [List.map_cons, List.mem_cons, not_or] at h
    have h' : ¬k' = k := fun hh => h.1 hh.symm
    simp [dictLookup, h', ih h.2]

theorem dictLookup_eq_some_of_mem {α : Type} (l : List (String × α)) (k : String) (v : α)
    (hnd : (l.map Prod.fst).Nodup) (h : (k, v) ∈ l) : dictLookup l k = some v := by
  induction l with
  | nil => simp at h
  | cons hd tl ih =>
    obtain ⟨k', w⟩ := hd
    simp only [List.map_cons, List.nodup_cons] at hnd
    rcases List.mem_cons.mp h with h1 | h1
    · obtain ⟨h2, h3⟩ := Prod.mk.injEq .. ▸ h1.symm
      simp [dictLookup, h2.symm, h3]
    · have hk : ¬k' = k := by
        intro he
        exact hnd.1 (he ▸ (List.mem_map.mpr ⟨(k, v), h1, rfl⟩))
      simp [dictLookup, hk, ih hnd.2 h1]

theorem dictInsert_of_not_mem {α : Type} (l : List (String × α)) (k : String) (v : α)
    (h : k ∉ l.map Prod.fst) : dictInsert l k v = l ++ [(k, v)] := by
  induction l with
  | nil => simp [dictInsert]
  | cons hd tl ih =>
    obtain ⟨k', w⟩ := hd
    simp only [List.map_cons, List.mem_cons, not_or] at h
    have h' : ¬k' = k := fun hh => h.1 hh.symm
    simp [dictInsert, h', ih h.2]

theorem dictInsert_append_single {α : Type} (l : List (String × α)) (k : String) (v w : α)
    (h : k ∉ l.map Prod.fst) :
    dictInsert (l ++ [(k, w)]) k v = l ++ [(k, v)] := by
  induction l with
  | nil => simp [dictInsert]
  | cons hd tl ih =>
    obtain ⟨k', u⟩ := hd
    simp only [List.map_cons, List.mem_cons, not_or] at h
    have h' : ¬k' = k := fun hh => h.1 hh.symm
    simp [dictInsert, h', ih h.2]

theorem dictErase_append_single {α : Type} (l : List (String × α)) (k : String) (v : α)
    (h : k ∉ l.map Prod.fst) : dictErase (l ++ [(k, v)]) k = l := by
  induction l with
  | nil => simp [dictErase]
  | cons hd tl ih =>
    obtain ⟨k', u⟩ := hd
    simp only [List.map_cons, List.mem_cons, not_or] at h
    have h' : ¬k' = k := fun hh => h.1 hh.symm
    simp [dictErase, h', ih h.2]

theorem dictLookup_append_single_self {α : Type} (l : List (String × α)) (k : String) (v : α)
    (h : k ∉ l.map Prod.fst) : dictLookup (l ++ [(k, v)]) k = some v := by
  induction l with
  | nil => simp [dictLookup]
  | cons hd tl ih =>
    obtain ⟨k', u⟩ := hd
    simp only [List.map_cons, List.mem_cons, not_or] at h
    have h' : ¬k' = k := fun hh => h.1 hh.symm
    simp [dictLookup, h', ih h.2]

theorem dictLookup_erase_self {α : Type} (l : List (String × α)) (k : String)
    (hnd : (l.map Prod.fst).Nodup) : dictLookup (dictErase l k) k = none := by
  induction l with
  | nil => simp [dictErase, dictLookup]
  | cons hd tl ih =>
    obtain ⟨k', u⟩ := hd
    simp only [List.map_cons, List.nodup_cons] at hnd
    by_cases h2 : k' = k
    · subst h2
      simpa [dictErase] using dictLookup_eq_none_of_not_mem tl k' hnd.1
    · simp [dictErase, dictLookup, h2, ih hnd.2]

/-! Helper lemmas about command/listener removal. -/

theorem removeCommands_eq_filter (names : List String) (cs : List String) :
    removeCommands cs names = cs.filter (fun c => decide (c ∉ names)) := by
  induction names generalizing cs with
  | nil => simp [removeCommands]
  | cons n ns ih =>
    show removeCommands (cs.filter fun c => c ≠ n) ns = _
    rw [ih, List.filter_filter]
    exact List.filter_congr (fun c _ => by
      by_cases h1 : c = n <;> by_cases h2 : c ∈ ns <;> simp [h1, h2])

theorem removeCommands_append_cancel (a b : List String)
    (hdisj : ∀ c ∈ b, c ∉ a) :
    removeCommands (a ++ b) b = a := by
  rw [removeCommands_eq_filter, List.filter_append]
  have h1 : a.filter (fun c => decide (c ∉ b)) = a :=
    List.filter_eq_self.mpr (fun c hc => by
      simpa using fun hcb => hdisj c hcb hc)
  have h2 : b.filter (fun c => decide (c ∉ b)) = [] := by
    simp only [List.filter_eq_nil_iff]
    intro c hc
    simp [hc]
  rw [h1, h2, List.append_nil]

theorem removeFirstListener_append (a rest : List (String × Nat)) (x : String × Nat)
    (hx : x ∉ a) : removeFirstListener (a ++ x :: rest) x = a ++ rest := by
  induction a with
  | nil => simp [removeFirstListener]
  | cons y ys ih =>
    simp only [List.mem_cons, not_or] at hx
    have hy : ¬y = x := fun h => hx.1 h.symm
    simp [removeFirstListener, hy, ih hx.2]

theorem removeListeners_append_cancel (a l : List (String × Nat))
    (hdisj : ∀ x ∈ l, x ∉ a) :
    removeListeners (a ++ l) l = a := by
  induction l generalizing a with
  | nil => simp [removeListeners]
  | cons x xs ih =>
    have hx : x ∉ a := hdisj x (List.mem_cons_self x xs)
    show removeListeners (removeFirstListener (a ++ x :: xs) x) xs = a
    rw [removeFirstListener_append a xs x hx]
    exact ih a (fun y hy => hdisj y (List.mem_cons_of_mem x hy))

theorem removeFirstListener_eq_filter (ls : List (String × Nat)) (x : String × Nat)
    (hnd : ls.Nodup) :
    removeFirstListener ls x = ls.filter (fun y => !decide (y = x)) := by
  induction ls with
  | nil => simp [removeFirstListener]
  | cons y ys ih =>
    simp only [List.nodup_cons] at hnd
    by_cases h : y = x
    · subst h
      have h1 : ys.filter (fun z => !decide (z = y)) = ys :=
        List.filter_eq_self.mpr (fun z hz => by
          simp only [Bool.not_eq_true', decide_eq_false_iff_not]
          exact fun he => hnd.1 (he ▸ hz))
      simp [removeFirstListener, h1]
    · simp [removeFirstListener, h, ih hnd.2]

theorem removeListeners_eq_filter (rec ls : List (String × Nat))
    (hnd : ls.Nodup) :
    removeListeners ls rec = ls.filter (fun y => decide (y ∉ rec)) := by
  induction rec generalizing ls with
  | nil => simp [removeListeners]
  | cons r rs ih =>
    show removeListeners (removeFirstListener ls r) rs = _
    rw [removeFirstListener_eq_filter ls r hnd,
        ih _ (List.Nodup.filter _ hnd), List.filter_filter]
    exact List.filter_congr (fun y _ => by
      by_cases h1 : y = r <;> by_cases h2 : y ∈ rs <;> simp [h1, h2])

/-! Helper lemmas about the gateway state machine. -/

theorem gwRun_append (s : GwState) (a b : List GwEvent) :
    gwRun s (a ++ b) = gwRun (gwRun s a) b :=
  List.foldl_append gwStep s a b

theorem gwStep_benign_running (s : GwState) (e : GwEvent)
    (he : e ≠ GwEvent.transportError) :
    (gwStep s e).is_running = s.is_running ∧ (gwStep s e).wsClosed = s.wsClosed := by
  match e with
  | .hbTick t =>
    by_cases hc : (s.is_running && !s.wsClosed) = true <;> simp [gwStep, hc]
  | .recvAck t =>
    by_cases hc : s.last_heartbeat_sent ≠ 0 <;> simp [gwStep, hc]
  | .transportError => exact absurd rfl he

theorem gwRun_keeps_running (es : List GwEvent) (s : GwState)
    (hr : s.is_running = true) (hw : s.wsClosed = false)
    (hbenign : ∀ e ∈ es, e ≠ GwEvent.transportError) :
    (gwRun s es).is_running = true ∧ (gwRun s es).wsClosed = false := by
  induction es generalizing s with
  | nil => exact ⟨hr, hw⟩
  | cons e es ih =>
    have hb := gwStep_benign_running s e (hbenign e (List.mem_cons_self e es))
    have hr' : (gwStep s e).is_running = true := by rw [hb.1]; exact hr
    have hw' : (gwStep s e).wsClosed = false := by rw [hb.2]; exact hw
    exact ih (gwStep s e) hr' hw'
      (fun e' he' => hbenign e' (List.mem_cons_of_mem e he'))

theorem gwStep_lastSent_of_nontick (s : GwState) (e : GwEvent)
    (he : ∀ t, e ≠ GwEvent.hbTick t) :
    (gwStep s e).last_heartbeat_sent = s.last_heartbeat_sent := by
  match e with
  | .hbTick t => exact absurd rfl (he t)
  | .recvAck t =>
    by_cases hc : s.last_heartbeat_sent ≠ 0 <;> simp [gwStep, hc]
  | .transportError => simp [gwStep]

theorem gwRun_lastSent_of_no_tick (es : List GwEvent) (s : GwState)
    (hnotick : ∀ t, GwEvent.hbTick t ∉ es) :
    (gwRun s es).last_heartbeat_sent = s.last_heartbeat_sent := by
  induction es generalizing s with
  | nil => rfl
  | cons e es ih =>
    have h1 : (gwStep s e).last_heartbeat_sent = s.last_heartbeat_sent :=
      gwStep_lastSent_of_nontick s e (fun t ht =>
        hnotick t (ht ▸ List.mem_cons_self e es))
    have h2 : (gwRun (gwStep s e) es).last_heartbeat_sent
        = (gwStep s e).last_heartbeat_sent :=
      ih (gwStep s e) (fun t ht => hnotick t (List.mem_cons_of_mem e ht))
    exact h2.trans h1

theorem gwRun_cons (s : GwState) (e : GwEvent) (es : List GwEvent) :
    gwRun s (e :: es) = gwRun (gwStep s e) es := rfl

/-! Claim theorems. -/

/-- C1, counterexample: starting from a freshly connected session, three
heartbeat-loop iterations pass with no `HeartbeatAck` ever received — two
full intervals elapse unacknowledged between the first and the third send —
yet the session is still running (not `Disconnected`) and the third
heartbeat is still sent, contradicting the claimed teardown after two
consecutive unacknowledged intervals. -/
theorem heartbeat_two_missed_acks_cex :
    (gwRun gwConnected [GwEvent.hbTick 1, GwEvent.hbTick 2, GwEvent.hbTick 3]).is_running
        = true ∧
    (gwRun gwConnected [GwEvent.hbTick 1, GwEvent.hbTick 2, GwEvent.hbTick 3]).sentHeartbeats
        = 3 ∧
    (gwRun gwConnected [GwEvent.hbTick 1, GwEvent.hbTick 2, GwEvent.hbTick 3]).latency
        = none := by
  refine ⟨rfl, rfl, rfl⟩

/-- C1, amended: the heartbeat loop performs no staleness detection at all:
while the session is running and the socket open, every loop iteration sends
a heartbeat regardless of how many intervals have passed without a
`HeartbeatAck`, and the session never leaves the running state on that
account (only a transport error in `listen` clears `is_running`). -/
theorem heartbeat_loop_ignores_missed_acks (s : GwState) (ts : List ℚ)
    (hr : s.is_running = true) (hw : s.wsClosed = false) :
    (gwRun s (ts.map GwEvent.hbTick)).is_running = true ∧
    (gwRun s (ts.map GwEvent.hbTick)).sentHeartbeats
      = s.sentHeartbeats + ts.length := by
  induction ts generalizing s with
  | nil => exact ⟨hr, rfl⟩
  | cons t ts ih =>
    have hstep : gwStep s (.hbTick t)
        = { s with last_heartbeat_sent := t
                   sentHeartbeats := s.sentHeartbeats + 1 } := by
      simp [gwStep, hr, hw]
    have h2 := ih { s with last_heartbeat_sent := t
                           sentHeartbeats := s.sentHeartbeats + 1 } hr hw
    rw [List.map_cons, gwRun_cons, hstep]
    refine ⟨h2.1, ?_⟩
    rw [h2.2]
    simp [List.length_cons]
    omega

theorem heartbeat_loop_ignores_missed_acks_witness :
    (gwRun gwConnected ([1, 2].map GwEvent.hbTick)).is_running = true ∧
    (gwRun gwConnected ([1, 2].map GwEvent.hbTick)).sentHeartbeats
      = gwConnected.sentHeartbeats + [(1 : ℚ), 2].length :=
  heartbeat_loop_ignores_missed_acks gwConnected [1, 2] rfl rfl

/-- C9: with non-decreasing, positive clock reads and no transport error,
after at least one heartbeat send the receipt of a `HeartbeatAck` at time
`v` sets `latency` to the elapsed time `v - u` from the most recent
heartbeat send (at time `u`), which is non-negative. -/
theorem heartbeat_latency_nonneg (es₁ es₂ : List GwEvent) (u v : ℚ)
    (hbenign : ∀ e ∈ es₁ ++ GwEvent.hbTick u :: es₂, e ≠ GwEvent.transportError)
    (hu : 0 < u)
    (hnotick : ∀ t, GwEvent.hbTick t ∉ es₂)
    (hmono : u ≤ v) :
    (gwStep (gwRun gwConnected (es₁ ++ GwEvent.hbTick u :: es₂))
        (GwEvent.recvAck v)).latency = some (v - u) ∧
    0 ≤ v - u := by
  have hb1 : ∀ e ∈ es₁, e ≠ GwEvent.transportError :=
    fun e he => hbenign e (List.mem_append_left _ he)
  have hrun := gwRun_keeps_running es₁ gwConnected rfl rfl hb1
  have htick : gwStep (gwRun gwConnected es₁) (.hbTick u)
      = { gwRun gwConnected es₁ with
          last_heartbeat_sent := u
          sentHeartbeats := (gwRun gwConnected es₁).sentHeartbeats + 1 } := by
    simp [gwStep, hrun.1, hrun.2]
  have hsplit : gwRun gwConnected (es₁ ++ GwEvent.hbTick u :: es₂)
      = gwRun (gwStep (gwRun gwConnected es₁) (.hbTick u)) es₂ := by
    rw [gwRun_append, gwRun_cons]
  have hlast : (gwRun gwConnected (es₁ ++ GwEvent.hbTick u :: es₂)).last_heartbeat_sent
      = u := by
    rw [hsplit, gwRun_lastSent_of_no_tick es₂ _ hnotick, htick]
  have hne : (gwRun gwConnected (es₁ ++ GwEvent.hbTick u :: es₂)).last_heartbeat_sent
      ≠ 0 := by
    rw [hlast]; exact ne_of_gt hu
  constructor
  · have hack : gwStep (gwRun gwConnected (es₁ ++ GwEvent.hbTick u :: es₂))
        (GwEvent.recvAck v)
        = { gwRun gwConnected (es₁ ++ GwEvent.hbTick u :: es₂) with
            latency := some (v - (gwRun gwConnected
              (es₁ ++ GwEvent.hbTick u :: es₂)).last_heartbeat_sent) } := by
      simp [gwStep, hne]
    rw [hack, hlast]
  · linarith

theorem heartbeat_latency_nonneg_witness :
    (gwStep (gwRun gwConnected ([] ++ GwEvent.hbTick 1 :: []))
        (GwEvent.recvAck 2)).latency = some (2 - 1) ∧ (0 : ℚ) ≤ 2 - 1 :=
  heartbeat_latency_nonneg [] [] 1 2 (by simp) (by norm_num) (by simp)
    (by norm_num)

/-- C5, counterexample: with group `troll` (child `spam`) resolved, a
payload whose first option has kind subcommand-group (type 2) naming
`spam` does not invoke any child: the router silently does nothing, even
though the claim says the first subcommand-group option names the child to
invoke. -/
theorem route_group_cex :
    route [("troll", RegEntry.group [("spam", false)])]
        ⟨2, "troll", [Opt.mk "spam" 2 JVal.null [Opt.mk "spam" 1 JVal.null []]]⟩
      = Action.nothing ∧
    Action.nothing ≠ Action.callCallback "troll" (some "spam") :=
  ⟨rfl, by decide⟩

/-- C5, amended: when the resolved entry is a group the router inspects
only `options[0]` and accepts only kind subcommand (type 1): an empty
options list or a first option of any other kind — including
subcommand-group (type 2) — is a silent no-op with no log; a type-1 first
option with a name not among the group's subcommands is logged as unknown;
a known type-1 first option names the child whose callback is invoked for
non-autocomplete interactions. -/
theorem route_group_first_option_only (reg : List (String × RegEntry))
    (subs : List (String × Bool)) (i : Interaction)
    (hg : dictLookup reg i.cmdName = some (RegEntry.group subs)) :
    (i.options = [] → route reg i = Action.nothing) ∧
    (∀ o rest, i.options = o :: rest → o.type ≠ 1 →
      route reg i = Action.nothing) ∧
    (∀ o rest, i.options = o :: rest → o.type = 1 →
      dictLookup subs o.name = none →
      route reg i = Action.warnUnknownSub o.name) ∧
    (∀ o rest b, i.options = o :: rest → o.type = 1 →
      dictLookup subs o.name = some b → i.itype ≠ 4 →
      route reg i = Action.callCallback i.cmdName (some o.name)) := by
  refine ⟨?_, ?_, ?_, ?_⟩
  · intro h
    simp [route, hg, h]
  · intro o rest h ht
    simp [route, hg, h, ht]
  · intro o rest h ht hn
    simp [route, hg, h, ht, hn]
  · intro o rest b h ht hn hi
    simp [route, hg, h, ht, hn, hi]

theorem route_group_first_option_only_witness :
    route [("troll", RegEntry.group [("spam", false)])]
        ⟨2, "troll", [Opt.mk "spam" 2 JVal.null []]⟩ = Action.nothing :=
  (route_group_first_option_only [("troll", RegEntry.group [("spam", false)])]
      [("spam", false)] ⟨2, "troll", [Opt.mk "spam" 2 JVal.null []]⟩ rfl).2.1
    (Opt.mk "spam" 2 JVal.null []) [] rfl (by decide)

/-- C6, counterexample: registering `foo` a second time with a different
definition (from a different source) does not fail and does not leave the
previous definition in place: the plain dict assignment silently replaces
it. -/
theorem registerCommand_collision_cex :
    dictLookup (registerCommand
        (registerCommand [] "foo" (RegEntry.simple false))
        "foo" (RegEntry.group [])) "foo" = some (RegEntry.group []) ∧
    RegEntry.group [] ≠ RegEntry.simple false :=
  ⟨rfl, by decide⟩

/-- C6, amended: registration never rejects a colliding name: the dict
assignment overwrites the previously registered definition in place, and
every other registered name is left unchanged. -/
theorem registerCommand_overwrites (reg : List (String × RegEntry))
    (name : String) (e : RegEntry) :
    dictLookup (registerCommand reg name e) name = some e ∧
    ∀ k, k ≠ name → dictLookup (registerCommand reg name e) k = dictLookup reg k :=
  ⟨dictLookup_insert_self reg name e,
   fun k hk => dictLookup_insert_ne reg name k e hk⟩

theorem registerCommand_overwrites_witness :
    dictLookup (registerCommand [("bar", RegEntry.simple true)] "foo"
        (RegEntry.simple false)) "foo" = some (RegEntry.simple false) ∧
    dictLookup (registerCommand [("bar", RegEntry.simple true)] "foo"
        (RegEntry.simple false)) "bar"
      = dictLookup [("bar", RegEntry.simple true)] "bar" :=
  ⟨(registerCommand_overwrites [("bar", RegEntry.simple true)] "foo"
      (RegEntry.simple false)).1,
   (registerCommand_overwrites [("bar", RegEntry.simple true)] "foo"
      (RegEntry.simple false)).2 "bar" (by decide)⟩

/-- C8: over a registry with pairwise-distinct names, lookup of a
registered name yields exactly the registered definition; lookup of an
unregistered name yields none and the router only logs it (invoking no
handler and sending no response), and an unknown subcommand of a resolved
group likewise only logs. -/
theorem resolve_exact_and_unknown_logged (reg : List (String × RegEntry))
    (hnd : (reg.map Prod.fst).Nodup) :
    (∀ name e, (name, e) ∈ reg → dictLookup reg name = some e) ∧
    (∀ name, name ∉ reg.map Prod.fst → dictLookup reg name = none) ∧
    (∀ i : Interaction, i.cmdName ∉ reg.map Prod.fst →
      route reg i = Action.warnUnknownCommand i.cmdName) ∧
    (∀ (i : Interaction) subs o rest,
      dictLookup reg i.cmdName = some (RegEntry.group subs) →
      i.options = o :: rest → o.type = 1 → dictLookup subs o.name = none →
      route reg i = Action.warnUnknownSub o.name) := by
  refine ⟨fun name e he => dictLookup_eq_some_of_mem reg name e hnd he,
          fun name hn => dictLookup_eq_none_of_not_mem reg name hn, ?_, ?_⟩
  · intro i hn
    have h := dictLookup_eq_none_of_not_mem reg i.cmdName hn
    simp [route, h]
  · intro i subs o rest hg hopt ht hsub
    simp [route, hg, hopt, ht, hsub]

theorem resolve_exact_and_unknown_logged_witness :
    dictLookup [("ping", RegEntry.simple false),
        ("troll", RegEntry.group [("spam", true)])] "ping"
      = some (RegEntry.simple false) ∧
    route [("ping", RegEntry.simple false),
        ("troll", RegEntry.group [("spam", true)])] ⟨2, "nope", []⟩
      = Action.warnUnknownCommand "nope" ∧
    route [("ping", RegEntry.simple false),
        ("troll", RegEntry.group [("spam", true)])]
        ⟨2, "troll", [Opt.mk "zap" 1 JVal.null []]⟩
      = Action.warnUnknownSub "zap" :=
  ⟨(resolve_exact_and_unknown_logged _ (by decide)).1 "ping"
      (RegEntry.simple false) (by decide),
   (resolve_exact_and_unknown_logged _ (by decide)).2.2.1 ⟨2, "nope", []⟩
      (by decide),
   (resolve_exact_and_unknown_logged _ (by decide)).2.2.2
      ⟨2, "troll", [Opt.mk "zap" 1 JVal.null []]⟩ [("spam", true)]
      (Opt.mk "zap" 1 JVal.null []) [] rfl rfl (by decide) rfl⟩

/-- Python view of an optional value: `none` is `None`. -/
def jOf : Option JVal → JVal
  | none => .null
  | some v => v

theorem searchOptions_eq_dfsFirstMatch (name : String) (opts : List Opt) :
    (∀ o ∈ allNodes opts, Opt.type o ≠ 1 → Opt.type o ≠ 2 →
      Opt.value o ≠ JVal.null) →
    searchOptions name opts = jOf (dfsFirstMatch name opts) ∧
    (∀ v, dfsFirstMatch name opts = some v → v ≠ JVal.null) := by
  induction opts using dfsFirstMatch.induct name with
  | case1 =>
    intro _
    simp [searchOptions, dfsFirstMatch, jOf]
  | case2 onm oty oval oopts rest hty v hv ih =>
    intro h
    have hsub : ∀ o ∈ allNodes oopts, Opt.type o ≠ 1 → Opt.type o ≠ 2 →
        Opt.value o ≠ JVal.null := by
      intro o ho
      exact h o (by simp [allNodes]; exact Or.inr (Or.inl ho))
    obtain ⟨ih1, ih2⟩ := ih hsub
    have hvne : v ≠ JVal.null := ih2 v hv
    have hs : searchOptions name oopts = v := by rw [ih1, hv]; rfl
    constructor
    · rw [searchOptions, dfsFirstMatch, if_pos hty, if_pos hty, hs, hv]
      cases v with
      | null => exact absurd rfl hvne
      | str s => rfl
      | int n => rfl
      | bool b => rfl
    · intro w hw
      rw [dfsFirstMatch, if_pos hty, hv] at hw
      exact (Option.some.inj hw) ▸ hvne
  | case3 onm oty oval oopts rest hty hv ihsub ihrest =>
    intro h
    have hsub : ∀ o ∈ allNodes oopts, Opt.type o ≠ 1 → Opt.type o ≠ 2 →
        Opt.value o ≠ JVal.null := by
      intro o ho
      exact h o (by simp [allNodes]; exact Or.inr (Or.inl ho))
    have hrest : ∀ o ∈ allNodes rest, Opt.type o ≠ 1 → Opt.type o ≠ 2 →
        Opt.value o ≠ JVal.null := by
      intro o ho
      exact h o (by simp [allNodes]; exact Or.inr (Or.inr ho))
    obtain ⟨ih1, _⟩ := ihsub hsub
    have hs : searchOptions name oopts = JVal.null := by rw [ih1, hv]; rfl
    obtain ⟨ihr1, ihr2⟩ := ihrest hrest
    constructor
    · rw [searchOptions, dfsFirstMatch, if_pos hty, if_pos hty, hs, hv]
      exact ihr1
    · intro w hw
      rw [dfsFirstMatch, if_pos hty, hv] at hw
      exact ihr2 w hw
  | case4 oty oval oopts rest hty =>
    intro h
    have hty' := not_or.mp hty
    have hhead : Opt.value (Opt.mk name oty oval oopts) ≠ JVal.null :=
      h _ (by simp [allNodes]) hty'.1 hty'.2
    constructor
    · rw [searchOptions, dfsFirstMatch, if_neg hty, if_neg hty, if_pos rfl,
        if_pos rfl]
      rfl
    · intro w hw
      rw [dfsFirstMatch, if_neg hty, if_pos rfl] at hw
      exact (Option.some.inj hw) ▸ hhead
  | case5 onm oty oval oopts rest hty hnm ihrest =>
    intro h
    have hrest : ∀ o ∈ allNodes rest, Opt.type o ≠ 1 → Opt.type o ≠ 2 →
        Opt.value o ≠ JVal.null := by
      intro o ho
      exact h o (by simp [allNodes]; exact Or.inr (Or.inr ho))
    obtain ⟨ihr1, ihr2⟩ := ihrest hrest
    constructor
    · rw [searchOptions, dfsFirstMatch, if_neg hty, if_neg hty, if_neg hnm,
        if_neg hnm]
      exact ihr1
    · intro w hw
      rw [dfsFirstMatch, if_neg hty, if_neg hnm] at hw
      exact ihr2 w hw

theorem searchOptions_null_of_null_matches (name : String) (opts : List Opt) :
    (∀ o ∈ allNodes opts, Opt.name o = name → Opt.value o = JVal.null) →
    searchOptions name opts = JVal.null := by
  induction opts using searchOptions.induct name with
  | case1 =>
    intro _
    simp [searchOptions]
  | case2 onm oty oval oopts rest hty hs ihsub ihrest =>
    intro h
    have hrest : ∀ o ∈ allNodes rest, Opt.name o = name → Opt.value o = JVal.null := by
      intro o ho
      exact h o (by simp [allNodes]; exact Or.inr (Or.inr ho))
    rw [searchOptions, if_pos hty, hs]
    exact ihrest hrest
  | case3 onm oty oval oopts rest hty a hs ihsub =>
    intro h
    have hsub : ∀ o ∈ allNodes oopts, Opt.name o = name → Opt.value o = JVal.null := by
      intro o ho
      exact h o (by simp [allNodes]; exact Or.inr (Or.inl ho))
    exact absurd (ihsub hsub) (by rw [hs]; intro hc; exact JVal.noConfusion hc)
  | case4 onm oty oval oopts rest hty a hs ihsub =>
    intro h
    have hsub : ∀ o ∈ allNodes oopts, Opt.name o = name → Opt.value o = JVal.null := by
      intro o ho
      exact h o (by simp [allNodes]; exact Or.inr (Or.inl ho))
    exact absurd (ihsub hsub) (by rw [hs]; intro hc; exact JVal.noConfusion hc)
  | case5 onm oty oval oopts rest hty a hs ihsub =>
    intro h
    have hsub : ∀ o ∈ allNodes oopts, Opt.name o = name → Opt.value o = JVal.null := by
      intro o ho
      exact h o (by simp [allNodes]; exact Or.inr (Or.inl ho))
    exact absurd (ihsub hsub) (by rw [hs]; intro hc; exact JVal.noConfusion hc)
  | case6 oty oval oopts rest hty =>
    intro h
    have hhead : Opt.value (Opt.mk name oty oval oopts) = JVal.null :=
      h _ (by simp [allNodes]) rfl
    rw [searchOptions, if_neg hty, if_pos rfl]
    exact hhead
  | case7 onm oty oval oopts rest hty hnm ihrest =>
    intro h
    have hrest : ∀ o ∈ allNodes rest, Opt.name o = name → Opt.value o = JVal.null := by
      intro o ho
      exact h o (by simp [allNodes]; exact Or.inr (Or.inr ho))
    rw [searchOptions, if_neg hty, if_neg hnm]
    exact ihrest hrest

/-- C4: for any payload in which no concrete (non-subcommand) option
carries a null value, `get_arg` realises exactly the claimed depth-first
search: it returns the value of the first option (in depth-first order,
recursing through subcommand and subcommand-group option lists) whose name
matches, and the caller-supplied default when no option with that name
exists.  This holds at every nesting depth, in particular depths 0 and 1. -/
theorem get_arg_is_dfs_first_match (i : Interaction) (name : String)
    (default : JVal)
    (h : ∀ o ∈ allNodes i.options, Opt.type o ≠ 1 → Opt.type o ≠ 2 →
      Opt.value o ≠ JVal.null) :
    get_arg i name default = (dfsFirstMatch name i.options).getD default := by
  obtain ⟨h1, h2⟩ := searchOptions_eq_dfsFirstMatch name i.options h
  match hv : dfsFirstMatch name i.options with
  | none =>
    have hs : searchOptions name i.options = JVal.null := by
      rw [h1, hv]; rfl
    simp [get_arg, hs]
  | some v =>
    have hvne : v ≠ JVal.null := h2 v hv
    have hs : searchOptions name i.options = v := by rw [h1, hv]; rfl
    cases v with
    | null => exact absurd rfl hvne
    | str s => simp [get_arg, hs]
    | int n => simp [get_arg, hs]
    | bool b => simp [get_arg, hs]

theorem get_arg_is_dfs_first_match_witness :
    get_arg ⟨2, "troll",
        [Opt.mk "spam" 1 JVal.null
          [Opt.mk "text" 3 (JVal.str "hi") [], Opt.mk "count" 4 (JVal.int 3) []]]⟩
        "count" JVal.null
      = (dfsFirstMatch "count"
          [Opt.mk "spam" 1 JVal.null
            [Opt.mk "text" 3 (JVal.str "hi") [],
             Opt.mk "count" 4 (JVal.int 3) []]]).getD JVal.null :=
  get_arg_is_dfs_first_match
    ⟨2, "troll",
      [Opt.mk "spam" 1 JVal.null
        [Opt.mk "text" 3 (JVal.str "hi") [], Opt.mk "count" 4 (JVal.int 3) []]]⟩
    "count" JVal.null
    (by simp [allNodes, Opt.type, Opt.value])

/-- C10: when every option in the payload's tree whose name matches the
requested argument carries a null (`None`) value — in particular when a
matching option is present but null — `get_arg` returns the caller-supplied
default, exactly as it does when the option is absent. -/
theorem get_arg_null_value_gives_default (i : Interaction) (name : String)
    (default : JVal)
    (hpresent : ∃ o ∈ allNodes i.options, Opt.name o = name)
    (hnull : ∀ o ∈ allNodes i.options, Opt.name o = name →
      Opt.value o = JVal.null) :
    get_arg i name default = default := by
  have hs := searchOptions_null_of_null_matches name i.options hnull
  simp [get_arg, hs]

theorem get_arg_null_value_gives_default_witness :
    get_arg ⟨2, "cmd", [Opt.mk "flag" 3 JVal.null []]⟩ "flag"
        (JVal.str "dflt") = JVal.str "dflt" :=
  get_arg_null_value_gives_default ⟨2, "cmd", [Opt.mk "flag" 3 JVal.null []]⟩
    "flag" (JVal.str "dflt")
    ⟨Opt.mk "flag" 3 JVal.null [], by simp [allNodes, Opt.name]⟩
    (by simp [allNodes, Opt.name, Opt.value])

/-! Helper lemmas about the extension runtime. -/

theorem cancelTask_lookup_self (ts : List (String × TaskRec)) (fn : String) :
    dictLookup (cancelTask ts fn) fn
      = (dictLookup ts fn).map
          (fun t => if t.done then t else { t with cancelled := true }) := by
  induction ts with
  | nil => simp [cancelTask, dictLookup]
  | cons hd tl ih =>
    obtain ⟨k, t⟩ := hd
    by_cases h : k = fn <;> simp [cancelTask, dictLookup, h, ih]

theorem cancelTask_map_fst (ts : List (String × TaskRec)) (fn : String) :
    (cancelTask ts fn).map Prod.fst = ts.map Prod.fst := by
  induction ts with
  | nil => simp [cancelTask]
  | cons hd tl ih =>
    obtain ⟨k, t⟩ := hd
    by_cases h : k = fn <;> simp [cancelTask, h, ih]

theorem cancelTask_append_single (ts : List (String × TaskRec)) (fn : String)
    (t : TaskRec) (h : fn ∉ ts.map Prod.fst) :
    cancelTask (ts ++ [(fn, t)]) fn
      = ts ++ [(fn, if t.done then t else { t with cancelled := true })] := by
  induction ts with
  | nil => simp [cancelTask]
  | cons hd tl ih =>
    obtain ⟨k, u⟩ := hd
    simp only [List.map_cons, List.mem_cons, not_or] at h
    have h' : ¬k = fn := fun hh => h.1 hh.symm
    simp [cancelTask, h', ih h.2]

theorem setDiffStr_append (before cs : List String)
    (hf : ∀ c ∈ cs, c ∉ before) (hn : cs.Nodup) :
    setDiffStr (before ++ cs) before = cs := by
  unfold setDiffStr
  rw [List.filter_append]
  have h1 : before.filter (fun c => decide (c ∉ before)) = [] := by
    simp only [List.filter_eq_nil_iff]
    intro c hc
    simp [hc]
  have h2 : cs.filter (fun c => decide (c ∉ before)) = cs :=
    List.filter_eq_self.mpr (fun c hc => by simpa using hf c hc)
  rw [h1, h2, List.nil_append, List.dedup_eq_self.mpr hn]

theorem setDiffL_append (before cs : List (String × Nat))
    (hf : ∀ c ∈ cs, c ∉ before) (hn : cs.Nodup) :
    setDiffL (before ++ cs) before = cs := by
  unfold setDiffL
  rw [List.filter_append]
  have h1 : before.filter (fun c => decide (c ∉ before)) = [] := by
    simp only [List.filter_eq_nil_iff]
    intro c hc
    simp [hc]
  have h2 : cs.filter (fun c => decide (c ∉ before)) = cs :=
    List.filter_eq_self.mpr (fun c hc => by simpa using hf c hc)
  rw [h1, h2, List.nil_append, List.dedup_eq_self.mpr hn]

theorem stop_script_eq (s : BotState) (fn : String) (ns : List String)
    (ls : List (String × Nat))
    (hc : dictLookup s.script_commands fn = some ns)
    (hl : dictLookup s.script_listeners fn = some ls) :
    stop_script s fn
      = { commands := removeCommands s.commands ns
          listeners := removeListeners s.listeners ls
          script_commands := dictErase s.script_commands fn
          script_listeners := dictErase s.script_listeners fn
          running_tasks := cancelTask s.running_tasks fn } := by
  simp [stop_script, hc, hl]

theorem stop_script_eq_noListeners (s : BotState) (fn : String) (ns : List String)
    (hc : dictLookup s.script_commands fn = some ns)
    (hl : dictLookup s.script_listeners fn = none) :
    stop_script s fn
      = { commands := removeCommands s.commands ns
          listeners := s.listeners
          script_commands := dictErase s.script_commands fn
          script_listeners := s.script_listeners
          running_tasks := cancelTask s.running_tasks fn } := by
  simp [stop_script, hc, hl]

theorem setDiffStr_self (l : List String) : setDiffStr l l = [] := by
  have h : l.filter (fun c => decide (c ∉ l)) = [] := by
    simp only [List.filter_eq_nil_iff]
    intro c hc
    simp [hc]
  simp [setDiffStr, h]

theorem setDiffL_self (l : List (String × Nat)) : setDiffL l l = [] := by
  have h : l.filter (fun c => decide (c ∉ l)) = [] := by
    simp only [List.filter_eq_nil_iff]
    intro c hc
    simp [hc]
  simp [setDiffL, h]

theorem load_body_eq (s : BotState) (fn : String) (sc : Script)
    (hcf : ∀ n ∈ sc.cmds, n ∉ s.commands) (hcn : sc.cmds.Nodup)
    (hlf : ∀ x ∈ sc.ls, x ∉ s.listeners) (hln : sc.ls.Nodup) :
    load_body s fn sc
      = { commands := s.commands ++ sc.cmds
          listeners := s.listeners ++ sc.ls
          script_commands :=
            if sc.cmds = [] then s.script_commands
            else dictInsert s.script_commands fn sc.cmds
          script_listeners :=
            if sc.ls = [] then s.script_listeners
            else dictInsert s.script_listeners fn sc.ls
          running_tasks :=
            if sc.cmds = [] ∧ sc.ls = [] then s.running_tasks
            else dictInsert s.running_tasks fn ⟨false, false⟩ } := by
  have hc' : setDiffStr (s.commands ++ sc.cmds) s.commands = sc.cmds :=
    setDiffStr_append s.commands sc.cmds hcf hcn
  have hl' : setDiffL (s.listeners ++ sc.ls) s.listeners = sc.ls :=
    setDiffL_append s.listeners sc.ls hlf hln
  by_cases h1 : sc.cmds = [] <;> by_cases h2 : sc.ls = [] <;>
    simp [load_body, hc', hl', h1, h2, setDiffStr_self, setDiffL_self]

theorem run_script_not_tracked (s : BotState) (fn : String) (sc : Script)
    (h : dictLookup s.running_tasks fn = none) :
    run_script s fn sc = load_body s fn sc := by
  simp [run_script, h]

theorem run_script_tracked (s : BotState) (fn : String) (sc : Script)
    (t : TaskRec) (h : dictLookup s.running_tasks fn = some t) :
    run_script s fn sc = load_body (stop_script s fn) fn sc := by
  simp [run_script, h]

theorem filter_key_append_single {α : Type} (l : List (String × α)) (fn : String)
    (v : α) (h : fn ∉ l.map Prod.fst) :
    (l ++ [(fn, v)]).filter (fun e => decide (e.1 = fn)) = [(fn, v)] := by
  rw [List.filter_append]
  have h1 : l.filter (fun e => decide (e.1 = fn)) = [] := by
    simp only [List.filter_eq_nil_iff]
    intro e he
    simp only [decide_eq_true_eq]
    exact fun hk => h (hk ▸ List.mem_map.mpr ⟨e, he, rfl⟩)
  simp [h1]

/-- C7: `stop_script` removes from the live registries precisely the
command names and listeners recorded for the unloaded identifier: each
recorded command/listener is gone afterwards, every command/listener not in
the recorded sets survives, the identifier's bookkeeping entries are
cleared, and the recorded sets of every other identifier are untouched. -/
theorem stop_script_removes_exactly (s : BotState) (fn : String)
    (ns : List String) (ls : List (String × Nat))
    (hc : dictLookup s.script_commands fn = some ns)
    (hl : dictLookup s.script_listeners fn = some ls)
    (hnd : s.listeners.Nodup)
    (hkc : (s.script_commands.map Prod.fst).Nodup)
    (hkl : (s.script_listeners.map Prod.fst).Nodup) :
    (stop_script s fn).commands
        = s.commands.filter (fun c => decide (c ∉ ns)) ∧
    (stop_script s fn).listeners
        = s.listeners.filter (fun x => decide (x ∉ ls)) ∧
    (∀ n ∈ ns, n ∉ (stop_script s fn).commands) ∧
    (∀ c ∈ s.commands, c ∉ ns → c ∈ (stop_script s fn).commands) ∧
    (∀ x ∈ ls, x ∉ (stop_script s fn).listeners) ∧
    (∀ y ∈ s.listeners, y ∉ ls → y ∈ (stop_script s fn).listeners) ∧
    dictLookup (stop_script s fn).script_commands fn = none ∧
    dictLookup (stop_script s fn).script_listeners fn = none ∧
    (∀ g, g ≠ fn → dictLookup (stop_script s fn).script_commands g
        = dictLookup s.script_commands g) ∧
    (∀ g, g ≠ fn → dictLookup (stop_script s fn).script_listeners g
        = dictLookup s.script_listeners g) := by
  rw [stop_script_eq s fn ns ls hc hl]
  refine ⟨removeCommands_eq_filter ns s.commands,
          removeListeners_eq_filter ls s.listeners hnd, ?_, ?_, ?_, ?_,
          dictLookup_erase_self s.script_commands fn hkc,
          dictLookup_erase_self s.script_listeners fn hkl,
          fun g hg => dictLookup_erase_ne s.script_commands fn g hg,
          fun g hg => dictLookup_erase_ne s.script_listeners fn g hg⟩
  · intro n hn
    rw [removeCommands_eq_filter]
    simp [List.mem_filter, hn]
  · intro c hcm hcn
    rw [removeCommands_eq_filter]
    simp [List.mem_filter, hcm, hcn]
  · intro x hx
    rw [removeListeners_eq_filter ls s.listeners hnd]
    simp [List.mem_filter, hx]
  · intro y hym hyn
    rw [removeListeners_eq_filter ls s.listeners hnd]
    simp [List.mem_filter, hym, hyn]

theorem stop_script_removes_exactly_witness :
    "foo" ∉ (stop_script
        ⟨["ping", "foo"], [("on_message", 7), ("on_x", 8)],
         [("a.py", ["foo"])], [("a.py", [("on_x", 8)])], []⟩ "a.py").commands ∧
    "ping" ∈ (stop_script
        ⟨["ping", "foo"], [("on_message", 7), ("on_x", 8)],
         [("a.py", ["foo"])], [("a.py", [("on_x", 8)])], []⟩ "a.py").commands :=
  ⟨(stop_script_removes_exactly
      ⟨["ping", "foo"], [("on_message", 7), ("on_x", 8)],
       [("a.py", ["foo"])], [("a.py", [("on_x", 8)])], []⟩ "a.py"
      ["foo"] [("on_x", 8)] rfl rfl (by decide) (by decide) (by decide)).2.2.1
    "foo" (by decide),
   (stop_script_removes_exactly
      ⟨["ping", "foo"], [("on_message", 7), ("on_x", 8)],
       [("a.py", ["foo"])], [("a.py", [("on_x", 8)])], []⟩ "a.py"
      ["foo"] [("on_x", 8)] rfl rfl (by decide) (by decide) (by decide)).2.2.2.1
    "ping" (by decide) (by decide)⟩

/-- C3: cancelling an active unit's tracked task goes through `stop_script`
(the runtime's only cancellation path): in the very state in which the
cancel signal is delivered to the still-pending task, every recorded
command and listener has already been removed and the bookkeeping cleared;
awaiting the cancelled task then observes the cancelled outcome, and the
finalization that marks the unit fully stopped only drops the task entry,
touching no command or listener state. -/
theorem cancel_unit_runs_unload_cleanup (s : BotState) (fn : String)
    (t : TaskRec) (ns : List String) (ls : List (String × Nat))
    (ht : dictLookup s.running_tasks fn = some t) (hdone : t.done = false)
    (hc : dictLookup s.script_commands fn = some ns)
    (hl : dictLookup s.script_listeners fn = some ls)
    (hnd : s.listeners.Nodup)
    (hkc : (s.script_commands.map Prod.fst).Nodup)
    (hkl : (s.script_listeners.map Prod.fst).Nodup)
    (hkt : (s.running_tasks.map Prod.fst).Nodup) :
    dictLookup (stop_script s fn).running_tasks fn
        = some ⟨false, true⟩ ∧
    awaitOutcome ⟨false, true⟩ = ScriptOutcome.cancelled ∧
    (∀ n ∈ ns, n ∉ (stop_script s fn).commands) ∧
    (∀ x ∈ ls, x ∉ (stop_script s fn).listeners) ∧
    dictLookup (stop_script s fn).script_commands fn = none ∧
    dictLookup (stop_script s fn).script_listeners fn = none ∧
    (finalizeCancelled (stop_script s fn) fn).commands
        = (stop_script s fn).commands ∧
    (finalizeCancelled (stop_script s fn) fn).listeners
        = (stop_script s fn).listeners ∧
    dictLookup (finalizeCancelled (stop_script s fn) fn).running_tasks fn
        = none := by
  have hstop := stop_script_eq s fn ns ls hc hl
  refine ⟨?_, rfl, ?_, ?_, ?_, ?_, rfl, rfl, ?_⟩
  · rw [hstop]
    show dictLookup (cancelTask s.running_tasks fn) fn = _
    rw [cancelTask_lookup_self, ht]
    obtain ⟨d, c⟩ := t
    cases hdone
    rfl
  · intro n hn
    rw [hstop]
    show n ∉ removeCommands s.commands ns
    rw [removeCommands_eq_filter]
    simp [List.mem_filter, hn]
  · intro x hx
    rw [hstop]
    show x ∉ removeListeners s.listeners ls
    rw [removeListeners_eq_filter ls s.listeners hnd]
    simp [List.mem_filter, hx]
  · rw [hstop]
    exact dictLookup_erase_self s.script_commands fn hkc
  · rw [hstop]
    exact dictLookup_erase_self s.script_listeners fn hkl
  · rw [hstop]
    show dictLookup (dictErase (cancelTask s.running_tasks fn) fn) fn = none
    exact dictLookup_erase_self _ fn (cancelTask_map_fst s.running_tasks fn ▸ hkt)

theorem cancel_unit_runs_unload_cleanup_witness :
    dictLookup (stop_script
        ⟨["ping", "foo"], [("on_x", 8)], [("a.py", ["foo"])],
         [("a.py", [("on_x", 8)])],
         [("a.py", ⟨false, false⟩)]⟩ "a.py").running_tasks "a.py"
      = some ⟨false, true⟩ ∧
    "foo" ∉ (stop_script
        ⟨["ping", "foo"], [("on_x", 8)], [("a.py", ["foo"])],
         [("a.py", [("on_x", 8)])],
         [("a.py", ⟨false, false⟩)]⟩ "a.py").commands :=
  ⟨(cancel_unit_runs_unload_cleanup
      ⟨["ping", "foo"], [("on_x", 8)], [("a.py", ["foo"])],
       [("a.py", [("on_x", 8)])], [("a.py", ⟨false, false⟩)]⟩ "a.py"
      ⟨false, false⟩ ["foo"] [("on_x", 8)] rfl rfl rfl rfl (by decide)
      (by decide) (by decide) (by decide)).1,
   (cancel_unit_runs_unload_cleanup
      ⟨["ping", "foo"], [("on_x", 8)], [("a.py", ["foo"])],
       [("a.py", [("on_x", 8)])], [("a.py", ⟨false, false⟩)]⟩ "a.py"
      ⟨false, false⟩ ["foo"] [("on_x", 8)] rfl rfl rfl rfl (by decide)
      (by decide) (by decide) (by decide)).2.2.1 "foo" (by decide)⟩

/-- C2: loading a second code unit under an identifier that is already
loaded first runs the full unload of the previous unit, so afterwards
exactly one registration set is active for that identifier — the second
load's: the bookkeeping holds exactly `(fn, sc2.cmds)`, every command or
listener registered only by the first unit is gone from the live
registries, and the second unit's commands and listeners are present. -/
theorem reload_replaces_registrations (s : BotState) (fn : String)
    (sc1 sc2 : Script)
    (h1c : ∀ n ∈ sc1.cmds, n ∉ s.commands) (h1cn : sc1.cmds.Nodup)
    (h1l : ∀ x ∈ sc1.ls, x ∉ s.listeners) (h1ln : sc1.ls.Nodup)
    (h2c : ∀ n ∈ sc2.cmds, n ∉ s.commands) (h2cn : sc2.cmds.Nodup)
    (h2l : ∀ x ∈ sc2.ls, x ∉ s.listeners) (h2ln : sc2.ls.Nodup)
    (h1ne : sc1.cmds ≠ []) (h2ne : sc2.cmds ≠ [])
    (hkc : fn ∉ s.script_commands.map Prod.fst)
    (hkl : fn ∉ s.script_listeners.map Prod.fst)
    (hkt : fn ∉ s.running_tasks.map Prod.fst) :
    (run_script (run_script s fn sc1) fn sc2).script_commands.filter
        (fun e => decide (e.1 = fn)) = [(fn, sc2.cmds)] ∧
    (∀ n ∈ sc1.cmds, n ∉ sc2.cmds →
      n ∉ (run_script (run_script s fn sc1) fn sc2).commands) ∧
    (∀ n ∈ sc2.cmds, n ∈ (run_script (run_script s fn sc1) fn sc2).commands) ∧
    (∀ x ∈ sc1.ls, x ∉ sc2.ls →
      x ∉ (run_script (run_script s fn sc1) fn sc2).listeners) ∧
    (∀ x ∈ sc2.ls, x ∈ (run_script (run_script s fn sc1) fn sc2).listeners) ∧
    dictLookup (run_script (run_script s fn sc1) fn sc2).script_listeners fn
        = (if sc2.ls = [] then none else some sc2.ls) := by
  -- the first load: nothing is tracked under `fn` yet
  have hrt0 : dictLookup s.running_tasks fn = none :=
    dictLookup_eq_none_of_not_mem _ fn hkt
  have e1 : run_script s fn sc1 = load_body s fn sc1 :=
    run_script_not_tracked s fn sc1 hrt0
  have e2 : load_body s fn sc1
      = { commands := s.commands ++ sc1.cmds
          listeners := s.listeners ++ sc1.ls
          script_commands := s.script_commands ++ [(fn, sc1.cmds)]
          script_listeners :=
            if sc1.ls = [] then s.script_listeners
            else s.script_listeners ++ [(fn, sc1.ls)]
          running_tasks := s.running_tasks ++ [(fn, ⟨false, false⟩)] } := by
    rw [load_body_eq s fn sc1 h1c h1cn h1l h1ln]
    rw [dictInsert_of_not_mem s.script_commands fn sc1.cmds hkc,
        dictInsert_of_not_mem s.running_tasks fn ⟨false, false⟩ hkt]
    by_cases hls : sc1.ls = [] <;>
      simp [hls, h1ne, dictInsert_of_not_mem s.script_listeners fn sc1.ls hkl]
  -- the second load finds the first unit's keep-alive task and stops it
  have htr : dictLookup (load_body s fn sc1).running_tasks fn
      = some ⟨false, false⟩ := by
    rw [e2]
    exact dictLookup_append_single_self s.running_tasks fn _ hkt
  have e3 : run_script (run_script s fn sc1) fn sc2
      = load_body (stop_script (load_body s fn sc1) fn) fn sc2 := by
    rw [e1]
    exact run_script_tracked _ fn sc2 ⟨false, false⟩ htr
  have hlc : dictLookup (load_body s fn sc1).script_commands fn
      = some sc1.cmds := by
    rw [e2]
    exact dictLookup_append_single_self s.script_commands fn _ hkc
  -- stopping the first unit restores the original registries
  have e4 : stop_script (load_body s fn sc1) fn
      = { commands := s.commands
          listeners := s.listeners
          script_commands := s.script_commands
          script_listeners := s.script_listeners
          running_tasks := s.running_tasks ++ [(fn, ⟨false, true⟩)] } := by
    by_cases hls : sc1.ls = []
    · have hll : dictLookup (load_body s fn sc1).script_listeners fn = none := by
        rw [e2]
        simp only [hls, if_pos rfl]
        exact dictLookup_eq_none_of_not_mem s.script_listeners fn hkl
      rw [stop_script_eq_noListeners _ fn sc1.cmds hlc hll, e2]
      simp only []
      rw [removeCommands_append_cancel s.commands sc1.cmds h1c,
          dictErase_append_single s.script_commands fn sc1.cmds hkc,
          cancelTask_append_single s.running_tasks fn ⟨false, false⟩ hkt]
      simp [hls]
    · have hll : dictLookup (load_body s fn sc1).script_listeners fn
          = some sc1.ls := by
        rw [e2]
        simp only [hls, if_neg hls]
        exact dictLookup_append_single_self s.script_listeners fn _ hkl
      rw [stop_script_eq _ fn sc1.cmds sc1.ls hlc hll, e2]
      simp only [if_neg hls]
      rw [removeCommands_append_cancel s.commands sc1.cmds h1c,
          removeListeners_append_cancel s.listeners sc1.ls h1l,
          dictErase_append_single s.script_commands fn sc1.cmds hkc,
          dictErase_append_single s.script_listeners fn sc1.ls hkl,
          cancelTask_append_single s.running_tasks fn ⟨false, false⟩ hkt]
      simp
  -- the second load on the restored state
  have e5 : run_script (run_script s fn sc1) fn sc2
      = { commands := s.commands ++ sc2.cmds
          listeners := s.listeners ++ sc2.ls
          script_commands := s.script_commands ++ [(fn, sc2.cmds)]
          script_listeners :=
            if sc2.ls = [] then s.script_listeners
            else s.script_listeners ++ [(fn, sc2.ls)]
          running_tasks := s.running_tasks ++ [(fn, ⟨false, false⟩)] } := by
    rw [e3, e4]
    rw [load_body_eq ⟨s.commands, s.listeners, s.script_commands,
        s.script_listeners, s.running_tasks ++ [(fn, TaskRec.mk false true)]⟩
        fn sc2 h2c h2cn h2l h2ln]
    rw [dictInsert_of_not_mem s.script_commands fn sc2.cmds hkc,
        dictInsert_append_single s.running_tasks fn ⟨false, false⟩ ⟨false, true⟩ hkt]
    by_cases hls : sc2.ls = [] <;>
      simp [hls, h2ne, dictInsert_of_not_mem s.script_listeners fn sc2.ls hkl]
  rw [e5]
  refine ⟨filter_key_append_single s.script_commands fn sc2.cmds hkc,
          ?_, ?_, ?_, ?_, ?_⟩
  · intro n hn hnn hmem
    rcases List.mem_append.mp hmem with h | h
    · exact h1c n hn h
    · exact hnn h
  · intro n hn
    exact List.mem_append_right _ hn
  · intro x hx hxn hmem
    rcases List.mem_append.mp hmem with h | h
    · exact h1l x hx h
    · exact hxn h
  · intro x hx
    exact List.mem_append_right _ hx
  · by_cases hls : sc2.ls = []
    · simp only [hls, if_pos rfl]
      exact dictLookup_eq_none_of_not_mem s.script_listeners fn hkl
    · simp only [if_neg hls]
      exact dictLookup_append_single_self s.script_listeners fn _ hkl

theorem reload_replaces_registrations_witness :
    (run_script (run_script ⟨["ping"], [("on_message", 7)], [], [], []⟩
        "a.py" ⟨["foo"], []⟩) "a.py" ⟨["bar"], []⟩).script_commands.filter
      (fun e => decide (e.1 = "a.py")) = [("a.py", ["bar"])] ∧
    "foo" ∉ (run_script (run_script ⟨["ping"], [("on_message", 7)], [], [], []⟩
        "a.py" ⟨["foo"], []⟩) "a.py" ⟨["bar"], []⟩).commands ∧
    "bar" ∈ (run_script (run_script ⟨["ping"], [("on_message", 7)], [], [], []⟩
        "a.py" ⟨["foo"], []⟩) "a.py" ⟨["bar"], []⟩).commands :=
  ⟨(reload_replaces_registrations ⟨["ping"], [("on_message", 7)], [], [], []⟩
      "a.py" ⟨["foo"], []⟩ ⟨["bar"], []⟩ (by decide) (by decide) (by decide)
      (by decide) (by decide) (by decide) (by decide) (by decide) (by decide)
      (by decide) (by decide) (by decide) (by decide)).1,
   (reload_replaces_registrations ⟨["ping"], [("on_message", 7)], [], [], []⟩
      "a.py" ⟨["foo"], []⟩ ⟨["bar"], []⟩ (by decide) (by decide) (by decide)
      (by decide) (by decide) (by decide) (by decide) (by decide) (by decide)
      (by decide) (by decide) (by decide) (by decide)).2.1 "foo" (by decide)
      (by decide),
   (reload_replaces_registrations ⟨["ping"], [("on_message", 7)], [], [], []⟩
      "a.py" ⟨["foo"], []⟩ ⟨["bar"], []⟩ (by decide) (by decide) (by decide)
      (by decide) (by decide) (by decide) (by decide) (by decide) (by decide)
      (by decide) (by decide) (by decide) (by decide)).2.2.1 "bar" (by decide)⟩

end Orbyte
